import Mathlib

/-!
Verification development for the dataflux download engine
(`dataflux_core/download.py`).

The Python module is shallowly embedded as follows.

* Byte strings are `List Nat`; object names are `String`; an input item
  `(name, size)` is a `String × Nat` (the spec types sizes as `uint64`).
* The object-store client (`google.cloud.storage`) is an injected `Adapter σ`
  whose operations act on an explicit state `σ` and may fail
  (`Except String`); Python exceptions become `Except.error`.
* Every embedded function additionally returns the list of adapter calls and
  log records it performed, in order (`List Ev`), so that claims about
  "which server calls happen" and "what is logged" are statable.
* `uuid.uuid4()` is modelled by a name generator `gen : Nat → String`
  applied to a per-call counter; the code's uniqueness of composite names
  becomes an explicit freshness hypothesis where a claim needs it.
* `dataflux_download_optimization_params=None` (the Python default) is an
  `Option`; reading `.max_composite_object_size` from `none` is Python's
  `AttributeError`, embedded as an immediate `Except.error`.
-/

/-- Source constant `MAX_NUM_OBJECTS_TO_COMPOSE = 32`. -/
def MAX_NUM_OBJECTS_TO_COMPOSE : Nat := 32

/-- Source constant `COMPOSED_PREFIX = "dataflux-composed-objects/"`. -/
def composedPrefixStr : String := "dataflux-composed-objects/"

/-- Observable events of a run: adapter calls (download / compose / delete)
and the two log records the source can emit (`logging.error` on a
decomposition length mismatch, `logging.exception` on a delete failure;
the latter has a fixed message with no fields in the source). -/
inductive Ev where
  | download (name : String)
  | composeCall (dest : String) (sources : List String)
  | deleteCall (name : String)
  | logLenMismatch (got want : Nat)
  | logDeleteFail
deriving DecidableEq

/-- The object-store adapter (`google.cloud.storage` client as used by the
source): bucket-scoped download-as-bytes, compose-from-sources and delete,
acting on an explicit store state `σ`. -/
structure Adapter (σ : Type) where
  downloadAsBytes : σ → String → Except String (List Nat)
  composeBlobs : σ → String → List String → Except String σ
  deleteBlob : σ → String → Except String σ

/-- Embedding of `download_single` (download.py lines 125-140): one
`blob.download_as_bytes` call through the adapter. -/
def download_single {σ : Type} (A : Adapter σ) (s : σ) (object_name : String) :
    List Ev × Except String (List Nat) :=
  ([Ev.download object_name], A.downloadAsBytes s object_name)

/-- Embedding of `compose` (download.py lines 36-76): the length guard
`len(objects) > MAX_NUM_OBJECTS_TO_COMPOSE` raises a `ValueError` first,
before any client construction or server call (hence the empty event
trace in that branch); otherwise one server-side compose call is issued
with the source names in order. -/
def compose {σ : Type} (A : Adapter σ) (s : σ) (destination_blob_name : String)
    (objects : List (String × Nat)) : List Ev × Except String σ :=
  if objects.length > MAX_NUM_OBJECTS_TO_COMPOSE then
    ([], Except.error ("32 objects allowed to compose, received " ++
      toString objects.length ++ " objects."))
  else
    ([Ev.composeCall destination_blob_name (objects.map Prod.fst)],
      A.composeBlobs s destination_blob_name (objects.map Prod.fst))

/-- The slicing loop of `decompose` (download.py lines 109-114): cursor
`start`, emitting `content[start : start + blob_size]` per object (Python
slicing on a non-negative cursor is `drop`/`take` with clamping). Returns
the slices and the final cursor value. -/
def decomposeLoop (composed_object_content : List Nat) :
    List (String × Nat) → Nat → List (List Nat) × Nat
  | [], start => ([], start)
  | o :: rest, start =>
    let content := (composed_object_content.drop start).take o.2
    let p := decomposeLoop composed_object_content rest (start + o.2)
    (content :: p.1, p.2)

/-- Embedding of `decompose` (download.py lines 79-122): download the
composite, slice it by the declared sizes, and if the final cursor differs
from the buffer length, log an error (got = cursor, want = buffer length)
but still return the computed slices. -/
def decompose {σ : Type} (A : Adapter σ) (s : σ) (composite_object_name : String)
    (objects : List (String × Nat)) : List Ev × Except String (List (List Nat)) :=
  match download_single A s composite_object_name with
  | (tr, Except.error e) => (tr, Except.error e)
  | (tr, Except.ok composed_object_content) =>
    let p := decomposeLoop composed_object_content objects 0
    if p.2 ≠ composed_object_content.length then
      (tr ++ [Ev.logLenMismatch p.2 composed_object_content.length], Except.ok p.1)
    else
      (tr, Except.ok p.1)

/-- The inner `while` loop of `dataflux_download` (download.py lines
203-210): starting from an accumulated size and an accumulated count, admit
the next object while `curr_size <= max_composite_object_size` (tested
before adding) and fewer than 32 objects are in the slice. Returns the
admitted slice and the remaining input. -/
def buildSlice (maxSize : Nat) : List (String × Nat) → Nat → Nat →
    List (String × Nat) × List (String × Nat)
  | [], _, _ => ([], [])
  | o :: rest, curr_size, count =>
    if curr_size ≤ maxSize ∧ count < MAX_NUM_OBJECTS_TO_COMPOSE then
      let p := buildSlice maxSize rest (curr_size + o.2) (count + 1)
      (o :: p.1, p.2)
    else
      ([], o :: rest)

theorem buildSlice_snd_length_le (maxSize : Nat) :
    ∀ (l : List (String × Nat)) (c n : Nat),
      (buildSlice maxSize l c n).2.length ≤ l.length := by
  intro l
  induction l with
  | nil => intro c n; simp [buildSlice]
  | cons o rest ih =>
    intro c n
    by_cases h : c ≤ maxSize ∧ n < MAX_NUM_OBJECTS_TO_COMPOSE
    · simp only [buildSlice, if_pos h]
      exact Nat.le_trans (ih (c + o.2) (n + 1)) (Nat.le_succ _)
    · simp [buildSlice, if_neg h]

theorem buildSlice_cons_zero (maxSize : Nat) (o : String × Nat)
    (rest : List (String × Nat)) :
    buildSlice maxSize (o :: rest) 0 0 =
      (o :: (buildSlice maxSize rest o.2 1).1, (buildSlice maxSize rest o.2 1).2) := by
  simp [buildSlice, MAX_NUM_OBJECTS_TO_COMPOSE]

theorem buildSlice_rest_lt (maxSize : Nat) (o : String × Nat)
    (rest : List (String × Nat)) :
    (buildSlice maxSize (o :: rest) 0 0).2.length < (o :: rest).length := by
  rw [buildSlice_cons_zero]
  exact Nat.lt_succ_of_le (buildSlice_snd_length_le maxSize rest o.2 1)

/-- Embedding of `dataflux_download`'s main loop (download.py lines
184-248). `gen k` models `str(uuid.uuid4())` for the `k`-th composite of
the call. Branches mirror the source: an oversized head is downloaded
singly; otherwise the inner while loop builds `objects_slice`; a slice of
length 1 is downloaded singly; a longer slice is composed, decomposed and
then best-effort deleted (only the delete is inside `try/except`, its
failure being logged and swallowed). -/
def dataflux_download_go {σ : Type} (A : Adapter σ) (maxSize : Nat)
    (gen : Nat → String) :
    List (String × Nat) → σ → Nat → List Ev × Except String (List (List Nat) × σ)
  | [], s, _ => ([], Except.ok ([], s))
  | o :: rest, s, k =>
    if o.2 > maxSize then
      match download_single A s o.1 with
      | (tr, Except.error e) => (tr, Except.error e)
      | (tr, Except.ok content) =>
        match dataflux_download_go A maxSize gen rest s k with
        | (tr2, Except.error e) => (tr ++ tr2, Except.error e)
        | (tr2, Except.ok (res, s1)) => (tr ++ tr2, Except.ok (content :: res, s1))
    else
      let pr := buildSlice maxSize (o :: rest) 0 0
      if pr.1.length = 1 then
        match download_single A s pr.1.headI.1 with
        | (tr, Except.error e) => (tr, Except.error e)
        | (tr, Except.ok content) =>
          match dataflux_download_go A maxSize gen pr.2 s k with
          | (tr2, Except.error e) => (tr ++ tr2, Except.error e)
          | (tr2, Except.ok (res, s1)) => (tr ++ tr2, Except.ok (content :: res, s1))
      else
        match compose A s (composedPrefixStr ++ gen k) pr.1 with
        | (trc, Except.error e) => (trc, Except.error e)
        | (trc, Except.ok s1) =>
          match decompose A s1 (composedPrefixStr ++ gen k) pr.1 with
          | (trd, Except.error e) => (trc ++ trd, Except.error e)
          | (trd, Except.ok contents) =>
            match A.deleteBlob s1 (composedPrefixStr ++ gen k) with
            | Except.error _ =>
              match dataflux_download_go A maxSize gen pr.2 s1 (k + 1) with
              | (tr2, Except.error e) =>
                (trc ++ trd ++
                  [Ev.deleteCall (composedPrefixStr ++ gen k), Ev.logDeleteFail] ++ tr2,
                  Except.error e)
              | (tr2, Except.ok (res, s2)) =>
                (trc ++ trd ++
                  [Ev.deleteCall (composedPrefixStr ++ gen k), Ev.logDeleteFail] ++ tr2,
                  Except.ok (contents ++ res, s2))
            | Except.ok s2 =>
              match dataflux_download_go A maxSize gen pr.2 s2 (k + 1) with
              | (tr2, Except.error e) =>
                (trc ++ trd ++ [Ev.deleteCall (composedPrefixStr ++ gen k)] ++ tr2,
                  Except.error e)
              | (tr2, Except.ok (res, s2m)) =>
                (trc ++ trd ++ [Ev.deleteCall (composedPrefixStr ++ gen k)] ++ tr2,
                  Except.ok (contents ++ res, s2m))
termination_by l _ _ => l.length
decreasing_by
all_goals simp_wf
all_goals first
  | exact Nat.lt_succ_self _
  | exact buildSlice_rest_lt maxSize o rest

/-- Source class `DataFluxDownloadOptimizationParams` (download.py lines
143-152). -/
structure DataFluxDownloadOptimizationParams where
  max_composite_object_size : Nat

/-- Embedding of `dataflux_download` (download.py lines 155-248).
`dataflux_download_optimization_params` defaults to `None` in the source
and its `max_composite_object_size` attribute is read unconditionally, so
a `none` argument raises an `AttributeError` before the loop touches the
adapter. -/
def dataflux_download {σ : Type} (A : Adapter σ) (objects : List (String × Nat))
    (s : σ) (dataflux_download_optimization_params : Option DataFluxDownloadOptimizationParams)
    (gen : Nat → String) : List Ev × Except String (List (List Nat) × σ) :=
  match dataflux_download_optimization_params with
  | none =>
    ([], Except.error
      "AttributeError: NoneType object has no attribute max_composite_object_size")
  | some params =>
    dataflux_download_go A params.max_composite_object_size gen objects s 0

/-- A planning decision of `dataflux_download`: either a single-object
download (Rule A head) or an `objects_slice` built by the inner while loop
(else branch). -/
inductive PlanItem where
  | single (obj : String × Nat)
  | group (objs : List (String × Nat))
deriving DecidableEq

/-- The planning skeleton of `dataflux_download`'s loop (download.py lines
184-212): the same branch structure and the same inner while loop as
`dataflux_download_go`, recording only the grouping decisions. -/
def plan (maxSize : Nat) : List (String × Nat) → List PlanItem
  | [] => []
  | o :: rest =>
    if o.2 > maxSize then
      PlanItem.single o :: plan maxSize rest
    else
      PlanItem.group (buildSlice maxSize (o :: rest) 0 0).1 ::
        plan maxSize (buildSlice maxSize (o :: rest) 0 0).2
termination_by l => l.length
decreasing_by
all_goals simp_wf
all_goals first
  | exact Nat.lt_succ_self _
  | exact buildSlice_rest_lt maxSize o rest

/-- Modelled from the spec (section 4.5, Rule B): starting from a group `G`
and a running total `S`, admit the next item while the input is non-empty,
`S ≤ max_composite_object_size` (tested on the accumulated total before
adding the item) and `len(G) < 32`. This is the reference admission
predicate that claim C4 compares against the source loop. -/
def specBuildGroup (maxSize : Nat) :
    List (String × Nat) → Nat → List (String × Nat) →
    List (String × Nat) × List (String × Nat)
  | G, _, [] => (G, [])
  | G, S, o :: rest =>
    if S ≤ maxSize ∧ G.length < 32 then
      specBuildGroup maxSize (G ++ [o]) (S + o.2) rest
    else
      (G, o :: rest)

theorem specBuildGroup_snd_length_le (maxSize : Nat) :
    ∀ (l : List (String × Nat)) (G : List (String × Nat)) (S : Nat),
      (specBuildGroup maxSize G S l).2.length ≤ l.length := by
  intro l
  induction l with
  | nil => intro G S; simp [specBuildGroup]
  | cons o rest ih =>
    intro G S
    by_cases h : S ≤ maxSize ∧ G.length < 32
    · simp only [specBuildGroup, if_pos h]
      exact Nat.le_trans (ih (G ++ [o]) (S + o.2)) (Nat.le_succ _)
    · simp [specBuildGroup, if_neg h]

theorem specBuildGroup_rest_lt (maxSize : Nat) (o : String × Nat)
    (rest : List (String × Nat)) :
    (specBuildGroup maxSize [] 0 (o :: rest)).2.length < (o :: rest).length := by
  have h : (0 : Nat) ≤ maxSize ∧ ([] : List (String × Nat)).length < 32 := by
    exact ⟨Nat.zero_le _, by decide⟩
  simp only [specBuildGroup, if_pos h]
  exact Nat.lt_succ_of_le (specBuildGroup_snd_length_le maxSize rest ([] ++ [o]) (0 + o.2))

/-- Modelled from the spec (section 4.5, Rules A-C): the reference planner
whose group boundaries claim C4 compares with the source planner `plan`. -/
def specPlan (maxSize : Nat) : List (String × Nat) → List PlanItem
  | [] => []
  | o :: rest =>
    if o.2 > maxSize then
      PlanItem.single o :: specPlan maxSize rest
    else
      PlanItem.group (specBuildGroup maxSize [] 0 (o :: rest)).1 ::
        specPlan maxSize (specBuildGroup maxSize [] 0 (o :: rest)).2
termination_by l => l.length
decreasing_by
all_goals simp_wf
all_goals first
  | exact Nat.lt_succ_self _
  | exact specBuildGroup_rest_lt maxSize o rest

/-- Server-side object store state for the stipulated fake adapter of
claim C1: a partial map from object names to their stored bytes. -/
def Store : Type := String → Option (List Nat)

/-- Point update of a `Store`. -/
def storeUpdate (s : Store) (n : String) (v : Option (List Nat)) : Store :=
  fun m => if m = n then v else s m

/-- Read all named objects from a store; `none` when any is missing. -/
def readAll (s : Store) : List String → Option (List (List Nat))
  | [] => some []
  | n :: rest =>
    match s n, readAll s rest with
    | some b, some bs => some (b :: bs)
    | _, _ => none

/-- The stipulated fake adapter of claim C1: `download` returns the stored
bytes of the named object, `compose` stores the in-order concatenation of
its sources under the destination name, `delete` removes the name. -/
def storeAdapter : Adapter Store where
  downloadAsBytes := fun s n =>
    match s n with
    | some b => Except.ok b
    | none => Except.error "NotFound"
  composeBlobs := fun s d ns =>
    match readAll s ns with
    | some bs => Except.ok (storeUpdate s d (some bs.flatten))
    | none => Except.error "NotFound"
  deleteBlob := fun s n => Except.ok (storeUpdate s n none)

/-- The result vector of a run, when the run succeeded. -/
def resultList {σ : Type} (x : List Ev × Except String (List (List Nat) × σ)) :
    Option (List (List Nat)) :=
  match x.2 with
  | Except.ok p => some p.1
  | Except.error _ => none

/-- Fixed composite-name generator used by concrete runs (models one
`uuid.uuid4()` draw). -/
def genU : Nat → String := fun _ => "u"

/-- Concrete store for the claim C1 counterexample: the declared size of
`"a"` (1 byte) disagrees with its stored bytes (empty). -/
def cStore : Store := fun n =>
  if n = "a" then some [] else if n = "b" then some [7, 8] else none

/-- Concrete store for the claim C1 witness: stored lengths match the
declared sizes of `("a", 1)` and `("b", 1)`. -/
def wStore : Store := fun n =>
  if n = "a" then some [3] else if n = "b" then some [4] else none

/-- Adapter for claim C2: compose and delete succeed, every download fails
(so the decompose step of a multi-object group raises). -/
def c2Adapter : Adapter Unit where
  downloadAsBytes := fun _ _ => Except.error "download failed"
  composeBlobs := fun _ _ _ => Except.ok ()
  deleteBlob := fun _ _ => Except.ok ()

/-- Adapter whose operations all succeed, with a fixed download payload;
used by witnesses that only need a deterministic successful adapter. -/
def okAdapter : Adapter Unit where
  downloadAsBytes := fun _ _ => Except.ok [1, 2, 3, 4, 5, 6]
  composeBlobs := fun _ _ _ => Except.ok ()
  deleteBlob := fun _ _ => Except.ok ()

/-- Adapter for claim C9: downloads and composes succeed, every delete
fails. -/
def delFailAdapter : Adapter Unit where
  downloadAsBytes := fun _ _ => Except.ok [9, 9]
  composeBlobs := fun _ _ _ => Except.ok ()
  deleteBlob := fun _ _ => Except.error "delete failed"

theorem buildSlice_append (maxSize : Nat) :
    ∀ (l : List (String × Nat)) (c n : Nat),
      (buildSlice maxSize l c n).1 ++ (buildSlice maxSize l c n).2 = l := by
  intro l
  induction l with
  | nil => intro c n; simp [buildSlice]
  | cons o rest ih =>
    intro c n
    by_cases h : c ≤ maxSize ∧ n < MAX_NUM_OBJECTS_TO_COMPOSE
    · simp only [buildSlice, if_pos h, List.cons_append, List.cons.injEq, true_and]
      exact ih (c + o.2) (n + 1)
    · simp [buildSlice, if_neg h]

theorem buildSlice_fst_length_le (maxSize : Nat) :
    ∀ (l : List (String × Nat)) (c n : Nat), n ≤ MAX_NUM_OBJECTS_TO_COMPOSE →
      (buildSlice maxSize l c n).1.length + n ≤ MAX_NUM_OBJECTS_TO_COMPOSE := by
  intro l
  induction l with
  | nil => intro c n hn; simpa [buildSlice] using hn
  | cons o rest ih =>
    intro c n hn
    by_cases h : c ≤ maxSize ∧ n < MAX_NUM_OBJECTS_TO_COMPOSE
    · simp only [buildSlice, if_pos h, List.length_cons]
      have := ih (c + o.2) (n + 1) h.2
      omega
    · simpa [buildSlice, if_neg h] using hn

theorem decomposeLoop_snd (content : List Nat) :
    ∀ (objs : List (String × Nat)) (start : Nat),
      (decomposeLoop content objs start).2 = start + (objs.map Prod.snd).sum := by
  intro objs
  induction objs with
  | nil => intro start; simp [decomposeLoop]
  | cons o rest ih =>
    intro start
    simp only [decomposeLoop, ih (start + o.2), List.map_cons, List.sum_cons]
    omega

theorem decomposeLoop_fst_length (content : List Nat) :
    ∀ (objs : List (String × Nat)) (start : Nat),
      (decomposeLoop content objs start).1.length = objs.length := by
  intro objs
  induction objs with
  | nil => intro start; simp [decomposeLoop]
  | cons o rest ih =>
    intro start
    simp [decomposeLoop, ih (start + o.2)]

theorem decomposeLoop_getElem (content : List Nat) :
    ∀ (objs : List (String × Nat)) (start k : Nat) (p : String × Nat),
      objs[k]? = some p →
      (decomposeLoop content objs start).1[k]? =
        some ((content.drop (start + ((objs.take k).map Prod.snd).sum)).take p.2) := by
  intro objs
  induction objs with
  | nil => intro start k p h; simp at h
  | cons o rest ih =>
    intro start k p h
    match k with
    | 0 =>
      simp only [List.getElem?_cons_zero, Option.some.injEq] at h
      subst h
      simp [decomposeLoop]
    | k + 1 =>
      simp only [List.getElem?_cons_succ] at h
      simp only [decomposeLoop, List.getElem?_cons_succ]
      rw [ih (start + o.2) k p h]
      have harith : start + o.2 + ((rest.take k).map Prod.snd).sum =
          start + ((((o :: rest).take (k + 1)).map Prod.snd).sum) := by
        simp only [List.take_succ_cons, List.map_cons, List.sum_cons]
        omega
      rw [harith]

theorem decomposeLoop_flatten :
    ∀ (slice : List (String × Nat)) (payloads : List (List Nat)),
      List.Forall₂ (fun p (b : List Nat) => b.length = p.2) slice payloads →
      ∀ (pre : List Nat),
        decomposeLoop (pre ++ payloads.flatten) slice pre.length =
          (payloads, pre.length + (slice.map Prod.snd).sum) := by
  intro slice payloads h
  induction h with
  | nil => intro pre; simp [decomposeLoop]
  | @cons p b ps bs h1 h2 ih =>
    intro pre
    have hflat : pre ++ (b :: bs).flatten = (pre ++ b) ++ bs.flatten := by
      simp [List.flatten_cons, List.append_assoc]
    have hdrop : ((pre ++ b ++ bs.flatten).drop pre.length).take p.2 = b := by
      rw [List.append_assoc, List.drop_left, ← h1, List.take_left]
    have hlen : pre.length + p.2 = (pre ++ b).length := by
      simp [List.length_append, h1]
    simp only [decomposeLoop, hflat, hdrop, hlen, ih (pre ++ b)]
    simp only [Prod.mk.injEq, List.map_cons, List.sum_cons, List.length_append, h1]
    exact ⟨trivial, by omega⟩

theorem readAll_ok (s : Store) :
    ∀ (ns : List String), (∀ n ∈ ns, ∃ b, s n = some b) →
      ∃ bs, readAll s ns = some bs ∧
        List.Forall₂ (fun n (b : List Nat) => s n = some b) ns bs := by
  intro ns
  induction ns with
  | nil => intro _; exact ⟨[], rfl, List.Forall₂.nil⟩
  | cons n rest ih =>
    intro h
    obtain ⟨b, hb⟩ := h n (List.mem_cons_self n rest)
    obtain ⟨bs, hbs, hf⟩ := ih (fun m hm => h m (List.mem_cons_of_mem n hm))
    refine ⟨b :: bs, ?_, List.Forall₂.cons hb hf⟩
    simp [readAll, hb, hbs]

theorem forall₂_sizes_of_items (items : List (String × List Nat)) :
    List.Forall₂ (fun p (b : List Nat) => b.length = p.2)
      (items.map (fun p => (p.1, p.2.length))) (items.map Prod.snd) := by
  induction items with
  | nil => exact List.Forall₂.nil
  | cons it rest ih => exact List.Forall₂.cons rfl ih

theorem specBuildGroup_eq_buildSlice (maxSize : Nat) :
    ∀ (l G : List (String × Nat)) (S : Nat),
      specBuildGroup maxSize G S l =
        (G ++ (buildSlice maxSize l S G.length).1,
          (buildSlice maxSize l S G.length).2) := by
  intro l
  induction l with
  | nil => intro G S; simp [specBuildGroup, buildSlice]
  | cons o rest ih =>
    intro G S
    by_cases h : S ≤ maxSize ∧ G.length < 32
    · have h32 : S ≤ maxSize ∧ G.length < MAX_NUM_OBJECTS_TO_COMPOSE := h
      rw [specBuildGroup, if_pos h, ih (G ++ [o]) (S + o.2)]
      simp only [buildSlice, if_pos h32, List.length_append, List.length_cons,
        List.length_nil, Nat.zero_add, List.append_assoc, List.singleton_append]
    · have h32 : ¬(S ≤ maxSize ∧ G.length < MAX_NUM_OBJECTS_TO_COMPOSE) := h
      rw [specBuildGroup, if_neg h]
      simp [buildSlice, if_neg h32]

theorem plan_eq_specPlan_bounded (maxSize : Nat) :
    ∀ (n : Nat) (objects : List (String × Nat)), objects.length ≤ n →
      plan maxSize objects = specPlan maxSize objects := by
  intro n
  induction n with
  | zero =>
    intro objects h
    cases objects with
    | nil => simp [plan, specPlan]
    | cons o rest => simp at h
  | succ n ih =>
    intro objects h
    cases objects with
    | nil => simp [plan, specPlan]
    | cons o rest =>
      by_cases ho : o.2 > maxSize
      · simp only [plan, specPlan, if_pos ho]
        rw [ih rest (by simpa using Nat.le_of_succ_le_succ h)]
      · simp only [plan, specPlan, if_neg ho]
        rw [specBuildGroup_eq_buildSlice maxSize (o :: rest) [] 0]
        simp only [List.nil_append, List.length_nil]
        rw [ih (buildSlice maxSize (o :: rest) 0 0).2
          (by
            have := buildSlice_rest_lt maxSize o rest
            simp only [List.length_cons] at this h
            omega)]

/-- Claim C4: the planner's group boundaries are exactly those of the
reference admission predicate of the spec (start each group with `S = 0`
and an empty `G`; admit the next item iff input remains, `S ≤
max_composite_object_size` on the pre-add total, and `len(G) < 32`):
the source planner `plan` and the spec-modelled `specPlan` agree on every
input, hence also on the one-overshoot behaviour. -/
theorem C4_plan_boundaries (maxSize : Nat) (objects : List (String × Nat)) :
    plan maxSize objects = specPlan maxSize objects :=
  plan_eq_specPlan_bounded maxSize objects.length objects (Nat.le_refl _)

/-- Claim C10: calling `dataflux_download` with the default
`dataflux_download_optimization_params = None` always fails with an
attribute-access error, with an empty event trace (so before any adapter
operation), for every adapter, input list, state and name generator: the
documented default is unusable. -/
theorem C10_none_params_fails {σ : Type} (A : Adapter σ)
    (objects : List (String × Nat)) (s : σ) (gen : Nat → String) :
    dataflux_download A objects s none gen =
      ([], Except.error
        "AttributeError: NoneType object has no attribute max_composite_object_size") := rfl

/-- Claim C6: `compose` raises the too-many-sources `ValueError`
synchronously, with an empty event trace (before any server call), exactly
when more than 32 objects are supplied; with 32 or fewer objects no
validation error is raised and the result is exactly the adapter's compose
call. -/
theorem C6_compose_guard {σ : Type} (A : Adapter σ) (s : σ) (d : String)
    (objects : List (String × Nat)) :
    (objects.length > MAX_NUM_OBJECTS_TO_COMPOSE →
      compose A s d objects =
        ([], Except.error ("32 objects allowed to compose, received " ++
          toString objects.length ++ " objects."))) ∧
    (objects.length ≤ MAX_NUM_OBJECTS_TO_COMPOSE →
      compose A s d objects =
        ([Ev.composeCall d (objects.map Prod.fst)],
          A.composeBlobs s d (objects.map Prod.fst))) := by
  constructor
  · intro h
    unfold compose
    rw [if_pos h]
  · intro h
    unfold compose
    rw [if_neg (by omega)]

theorem C6_compose_guard_witness :
    compose okAdapter () "d" (List.replicate 33 (("o", 1) : String × Nat)) =
      ([], Except.error ("32 objects allowed to compose, received " ++
        toString (List.replicate 33 (("o", 1) : String × Nat)).length ++ " objects.")) ∧
    compose okAdapter () "d" [("a", 1)] =
      ([Ev.composeCall "d" ["a"]], Except.ok ()) := by
  constructor
  · exact (C6_compose_guard okAdapter () "d" (List.replicate 33 ("o", 1))).1 (by decide)
  · exact (C6_compose_guard okAdapter () "d" [("a", 1)]).2 (by decide)

/-- Claim C7: when the composite download succeeds with buffer `B`,
`decompose` returns (never raises) one slice per group member, the `k`-th
slice being `B[start_k : start_k + size_k]` with `start_k` the sum of the
preceding sizes; and the length-mismatch error is logged exactly when the
final cursor (the sum of all sizes) differs from `len(B)`. -/
theorem C7_decompose_slices {σ : Type} (A : Adapter σ) (s : σ) (name : String)
    (objects : List (String × Nat)) (B : List Nat)
    (h : A.downloadAsBytes s name = Except.ok B) :
    ∃ tr res, decompose A s name objects = (tr, Except.ok res) ∧
      res.length = objects.length ∧
      (∀ (k : Nat) (p : String × Nat), objects[k]? = some p →
        res[k]? = some ((B.drop (((objects.take k).map Prod.snd).sum)).take p.2)) ∧
      (Ev.logLenMismatch ((objects.map Prod.snd).sum) B.length ∈ tr ↔
        (objects.map Prod.snd).sum ≠ B.length) := by
  have hsnd : (decomposeLoop B objects 0).2 = (objects.map Prod.snd).sum := by
    rw [decomposeLoop_snd]
    omega
  by_cases hm : (objects.map Prod.snd).sum = B.length
  · refine ⟨[Ev.download name], (decomposeLoop B objects 0).1, ?_, ?_, ?_, ?_⟩
    · simp [decompose, download_single, h, hsnd, hm]
    · exact decomposeLoop_fst_length B objects 0
    · intro k p hk
      rw [decomposeLoop_getElem B objects 0 k p hk]
      simp
    · simp [hm]
  · refine ⟨[Ev.download name,
        Ev.logLenMismatch ((objects.map Prod.snd).sum) B.length],
      (decomposeLoop B objects 0).1, ?_, ?_, ?_, ?_⟩
    · simp [decompose, download_single, h, hsnd, hm]
    · exact decomposeLoop_fst_length B objects 0
    · intro k p hk
      rw [decomposeLoop_getElem B objects 0 k p hk]
      simp
    · simp [hm]

theorem C7_decompose_slices_witness :
    ∃ tr res, decompose okAdapter () "c" [("a", 2), ("b", 3)] = (tr, Except.ok res) ∧
      res.length = ([("a", 2), ("b", 3)] : List (String × Nat)).length ∧
      (∀ (k : Nat) (p : String × Nat), ([("a", 2), ("b", 3)] : List (String × Nat))[k]? = some p →
        res[k]? = some ((([1, 2, 3, 4, 5, 6] : List Nat).drop
          (((([("a", 2), ("b", 3)] : List (String × Nat)).take k).map Prod.snd).sum)).take p.2)) ∧
      (Ev.logLenMismatch ((([("a", 2), ("b", 3)] : List (String × Nat)).map Prod.snd).sum)
          ([1, 2, 3, 4, 5, 6] : List Nat).length ∈ tr ↔
        ((([("a", 2), ("b", 3)] : List (String × Nat)).map Prod.snd).sum ≠
          ([1, 2, 3, 4, 5, 6] : List Nat).length)) :=
  C7_decompose_slices okAdapter () "c" [("a", 2), ("b", 3)] [1, 2, 3, 4, 5, 6] rfl

/-- Claim C8: round-trip identity. If each payload's length equals its
declared size and the adapter's download of the composite returns the
byte-concatenation of the payloads in compose order, then `decompose` on
that group returns exactly the original payloads (with no mismatch log). -/
theorem C8_roundtrip {σ : Type} (A : Adapter σ) (s : σ) (name : String)
    (items : List (String × List Nat))
    (h : A.downloadAsBytes s name = Except.ok (items.map Prod.snd).flatten) :
    decompose A s name (items.map (fun p => (p.1, p.2.length))) =
      ([Ev.download name], Except.ok (items.map Prod.snd)) := by
  have hloop := decomposeLoop_flatten (items.map (fun p => (p.1, p.2.length)))
      (items.map Prod.snd) (forall₂_sizes_of_items items) []
  simp only [List.nil_append, List.length_nil] at hloop
  have hsum : (((items.map (fun p => (p.1, p.2.length))).map Prod.snd).sum) =
      ((items.map Prod.snd).flatten).length := by
    simp [List.length_flatten, List.map_map, Function.comp_def]
  simp [decompose, download_single, h, hloop, hsum]
  have hfun : (Prod.snd ∘ fun p : String × List Nat => (p.1, p.2.length)) =
      (List.length ∘ Prod.snd) := by
    funext p
    rfl
  rw [hfun]

theorem C8_roundtrip_witness :
    decompose okAdapter () "c" [("a", 2), ("b", 4)] =
      ([Ev.download "c"], Except.ok [[1, 2], [3, 4, 5, 6]]) :=
  C8_roundtrip okAdapter () "c" [("a", [1, 2]), ("b", [3, 4, 5, 6])] rfl

theorem forall₂_strengthen {α β : Type} {R S : α → β → Prop} :
    ∀ {l1 : List α} {l2 : List β}, List.Forall₂ R l1 l2 →
      (∀ a ∈ l1, ∀ b, R a b → S a b) → List.Forall₂ S l1 l2 := by
  intro l1 l2 h
  induction h with
  | nil => intro _; exact List.Forall₂.nil
  | @cons a b as bs h1 h2 ih =>
    intro hs
    exact List.Forall₂.cons (hs a (List.mem_cons_self a as) b h1)
      (ih fun x hx y hy => hs x (List.mem_cons_of_mem a hx) y hy)

theorem forall₂_map_eq {α β γ : Type} {f : α → γ} {g : β → γ} :
    ∀ {l1 : List α} {l2 : List β},
      List.Forall₂ (fun a b => g b = f a) l1 l2 → l1.map f = l2.map g := by
  intro l1 l2 h
  induction h with
  | nil => rfl
  | @cons a b as bs h1 h2 ih => simp [h1, ih]

theorem go_store_correct (store0 : Store) (gen : Nat → String) (maxSize : Nat) :
    ∀ (n : Nat) (objects : List (String × Nat)), objects.length ≤ n →
      ∀ (s : Store) (k : Nat),
      (∀ p ∈ objects, s p.1 = store0 p.1) →
      (∀ p ∈ objects, ∃ b, store0 p.1 = some b ∧ b.length = p.2) →
      (∀ (j : Nat), ∀ p ∈ objects, composedPrefixStr ++ gen j ≠ p.1) →
      ∃ tr r s1,
        dataflux_download_go storeAdapter maxSize gen objects s k =
          (tr, Except.ok (r, s1)) ∧
        List.Forall₂ (fun (p : String × Nat) (b : List Nat) => store0 p.1 = some b)
          objects r := by
  intro n
  induction n with
  | zero =>
    intro objects h s k _ _ _
    cases objects with
    | nil => exact ⟨[], [], s, by simp [dataflux_download_go], List.Forall₂.nil⟩
    | cons o rest => simp at h
  | succ n ih =>
    intro objects h s k hagree hacc hfresh
    cases objects with
    | nil => exact ⟨[], [], s, by simp [dataflux_download_go], List.Forall₂.nil⟩
    | cons o rest =>
      have hle : rest.length ≤ n := by
        simp only [List.length_cons] at h
        omega
      by_cases ho : o.2 > maxSize
      · obtain ⟨b, hb, hblen⟩ := hacc o (List.mem_cons_self o rest)
        have hso : s o.1 = some b := by
          rw [hagree o (List.mem_cons_self o rest), hb]
        obtain ⟨tr2, r2, s2, hrun, hfa⟩ := ih rest hle s k
          (fun p hp => hagree p (List.mem_cons_of_mem o hp))
          (fun p hp => hacc p (List.mem_cons_of_mem o hp))
          (fun j p hp => hfresh j p (List.mem_cons_of_mem o hp))
        refine ⟨[Ev.download o.1] ++ tr2, b :: r2, s2, ?_, List.Forall₂.cons hb hfa⟩
        have hdl : storeAdapter.downloadAsBytes s o.1 = Except.ok b := by
          simp [storeAdapter, hso]
        simp [dataflux_download_go, if_pos ho, download_single, hdl, hrun]
      · rcases hpr : buildSlice maxSize (o :: rest) 0 0 with ⟨slice, rest2⟩
        have happend : slice ++ rest2 = o :: rest := by
          have := buildSlice_append maxSize (o :: rest) 0 0
          rw [hpr] at this
          exact this
        have hsubs : ∀ p ∈ slice, p ∈ o :: rest := by
          intro p hp
          rw [← happend]
          exact List.mem_append_left _ hp
        have hsub2 : ∀ p ∈ rest2, p ∈ o :: rest := by
          intro p hp
          rw [← happend]
          exact List.mem_append_right _ hp
        have hlen2 : rest2.length ≤ n := by
          have := buildSlice_rest_lt maxSize o rest
          rw [hpr] at this
          simp only [List.length_cons] at this h
          omega
        have hczp := buildSlice_cons_zero maxSize o rest
        rw [hpr] at hczp
        have hslice_cons : slice = o :: (buildSlice maxSize rest o.2 1).1 :=
          congrArg Prod.fst hczp
        by_cases hl : slice.length = 1
        · have htail : (buildSlice maxSize rest o.2 1).1 = [] := by
            rw [hslice_cons] at hl
            simpa using hl
          have hfsto : slice = [o] := by rw [hslice_cons, htail]
          have hrest2 : rest2 = rest := by
            rw [hfsto] at happend
            simpa using happend
          obtain ⟨b, hb, hblen⟩ := hacc o (List.mem_cons_self o rest)
          have hso : s o.1 = some b := by
            rw [hagree o (List.mem_cons_self o rest), hb]
          obtain ⟨tr2, r2, s2, hrun, hfa⟩ := ih rest hle s k
            (fun p hp => hagree p (List.mem_cons_of_mem o hp))
            (fun p hp => hacc p (List.mem_cons_of_mem o hp))
            (fun j p hp => hfresh j p (List.mem_cons_of_mem o hp))
          refine ⟨[Ev.download o.1] ++ tr2, b :: r2, s2, ?_, List.Forall₂.cons hb hfa⟩
          rw [← hrest2] at hrun
          have hdl : storeAdapter.downloadAsBytes s o.1 = Except.ok b := by
            simp [storeAdapter, hso]
          simp [dataflux_download_go, if_neg ho, hpr, if_pos hl, hfsto,
            download_single, hdl, hrun]
        · -- multi-object slice: compose, decompose, delete, recurse
          have hslice_le : slice.length ≤ MAX_NUM_OBJECTS_TO_COMPOSE := by
            have h1 := buildSlice_fst_length_le maxSize (o :: rest) 0 0 (by decide)
            rw [hpr] at h1
            simpa using h1
          have hreads : ∀ nm ∈ slice.map Prod.fst, ∃ b, s nm = some b := by
            intro nm hnm
            obtain ⟨p, hp, hpeq⟩ := List.mem_map.mp hnm
            obtain ⟨b, hb, _⟩ := hacc p (hsubs p hp)
            exact ⟨b, by rw [← hpeq, hagree p (hsubs p hp), hb]⟩
          obtain ⟨bs, hbs, hfread⟩ := readAll_ok s (slice.map Prod.fst) hreads
          have hfread2 : List.Forall₂ (fun (p : String × Nat) (b : List Nat) =>
              s p.1 = some b) slice bs :=
            List.forall₂_map_left_iff.mp hfread
          have hstrong : List.Forall₂ (fun (p : String × Nat) (b : List Nat) =>
              store0 p.1 = some b ∧ b.length = p.2) slice bs := by
            refine forall₂_strengthen hfread2 ?_
            intro p hp b hpb
            obtain ⟨b0, hb0, hb0len⟩ := hacc p (hsubs p hp)
            have : store0 p.1 = some b := by rw [← hagree p (hsubs p hp), hpb]
            refine ⟨this, ?_⟩
            rw [hb0] at this
            injection this with hbb
            rw [← hbb, hb0len]
          have hsizes : List.Forall₂ (fun (p : String × Nat) (b : List Nat) =>
              b.length = p.2) slice bs :=
            forall₂_strengthen hstrong (fun _ _ _ hpb => hpb.2)
          have hstore : List.Forall₂ (fun (p : String × Nat) (b : List Nat) =>
              store0 p.1 = some b) slice bs :=
            forall₂_strengthen hstrong (fun _ _ _ hpb => hpb.1)
          have hloop := decomposeLoop_flatten slice bs hsizes []
          simp only [List.nil_append, List.length_nil] at hloop
          have hsz : (slice.map Prod.snd).sum = bs.flatten.length := by
            have hmap : slice.map Prod.snd = bs.map List.length :=
              forall₂_map_eq hsizes
            rw [hmap, List.length_flatten]
          -- name and updated states
          have hname : ∀ p ∈ o :: rest, composedPrefixStr ++ gen k ≠ p.1 :=
            fun p hp => hfresh k p hp
          have hcomp : storeAdapter.composeBlobs s (composedPrefixStr ++ gen k)
              (slice.map Prod.fst) =
              Except.ok (storeUpdate s (composedPrefixStr ++ gen k)
                (some bs.flatten)) := by
            simp [storeAdapter, hbs]
          have hdl1 : storeUpdate s (composedPrefixStr ++ gen k) (some bs.flatten)
              (composedPrefixStr ++ gen k) = some bs.flatten := by
            simp [storeUpdate]
          obtain ⟨tr2, r2, s3, hrun, hfa⟩ := ih rest2 hlen2
            (storeUpdate (storeUpdate s (composedPrefixStr ++ gen k)
              (some bs.flatten)) (composedPrefixStr ++ gen k) none) (k + 1)
            (by
              intro p hp
              have hne : p.1 ≠ composedPrefixStr ++ gen k :=
                fun hq => hname p (hsub2 p hp) hq.symm
              simp only [storeUpdate, if_neg hne]
              exact hagree p (hsub2 p hp))
            (fun p hp => hacc p (hsub2 p hp))
            (fun j p hp => hfresh j p (hsub2 p hp))
          refine ⟨[Ev.composeCall (composedPrefixStr ++ gen k) (slice.map Prod.fst)] ++
            [Ev.download (composedPrefixStr ++ gen k)] ++
            [Ev.deleteCall (composedPrefixStr ++ gen k)] ++ tr2,
            bs ++ r2, s3, ?_, ?_⟩
          · have hnotgt : ¬ slice.length > MAX_NUM_OBJECTS_TO_COMPOSE := by omega
            have hdlOk : storeAdapter.downloadAsBytes
                (storeUpdate s (composedPrefixStr ++ gen k) (some bs.flatten))
                (composedPrefixStr ++ gen k) = Except.ok bs.flatten := by
              simp [storeAdapter, hdl1]
            have hdelOk : storeAdapter.deleteBlob
                (storeUpdate s (composedPrefixStr ++ gen k) (some bs.flatten))
                (composedPrefixStr ++ gen k) =
                Except.ok (storeUpdate (storeUpdate s (composedPrefixStr ++ gen k)
                  (some bs.flatten)) (composedPrefixStr ++ gen k) none) := rfl
            simp [dataflux_download_go, if_neg ho, hpr, if_neg hl, compose,
              hnotgt, hcomp, decompose, download_single, hdlOk, hdelOk,
              hloop, hsz, hrun]
          · rw [← happend]
            exact List.rel_append hstore hfa

/-- Claim C1 (counterexample to the claim as stated): with the stipulated
adapter (compose stores the in-order concatenation of its sources,
download returns stored bytes) and `max_composite_object_size = 5 > 0`,
the input `[("a", 1), ("b", 1)]` over a store holding `"a" := []` and
`"b" := [7, 8]` returns successfully with `result = [[7], [8]]`, but the
stored bytes of `"a"` are `[]` and `[7] ≠ []`: the claim fails when a
declared size disagrees with the stored length. -/
theorem C1_download_correct_counterexample :
    resultList (dataflux_download storeAdapter [("a", 1), ("b", 1)] cStore
        (some ⟨5⟩) genU) = some [[7], [8]] ∧
    cStore "a" = some [] ∧ ([7] : List Nat) ≠ [] := by
  refine ⟨?_, rfl, by decide⟩
  simp [resultList, dataflux_download, dataflux_download_go, buildSlice, compose,
    decompose, download_single, decomposeLoop, storeAdapter, readAll, storeUpdate,
    cStore, genU, composedPrefixStr, MAX_NUM_OBJECTS_TO_COMPOSE]

/-- Claim C1 (amended): for every input sequence and params with
`max_composite_object_size > 0`, with the stipulated adapter the call
returns successfully, the result has exactly `len(I)` elements, and
`result[k]` equals the stored bytes of `I[k].name` (input order) —
provided each input object is present in the store with stored length
equal to its declared size, and the uuid-generated composite names do not
collide with input names (which the source's `uuid.uuid4()` guarantees). -/
theorem C1_download_correct_amended (store0 : Store) (objects : List (String × Nat))
    (gen : Nat → String) (params : DataFluxDownloadOptimizationParams)
    (_hpos : 0 < params.max_composite_object_size)
    (hacc : ∀ p ∈ objects, ∃ b, store0 p.1 = some b ∧ b.length = p.2)
    (hfresh : ∀ (j : Nat), ∀ p ∈ objects, composedPrefixStr ++ gen j ≠ p.1) :
    ∃ tr r s1,
      dataflux_download storeAdapter objects store0 (some params) gen =
        (tr, Except.ok (r, s1)) ∧
      r.length = objects.length ∧
      List.Forall₂ (fun (p : String × Nat) (b : List Nat) => store0 p.1 = some b)
        objects r := by
  obtain ⟨tr, r, s1, hrun, hfa⟩ := go_store_correct store0 gen
    params.max_composite_object_size objects.length objects (Nat.le_refl _)
    store0 0 (fun p _ => rfl) hacc hfresh
  exact ⟨tr, r, s1, hrun, hfa.length_eq.symm, hfa⟩

theorem C1_download_correct_witness :
    (0 : Nat) < 5 ∧
    ∃ tr r s1,
      dataflux_download storeAdapter [("a", 1), ("b", 1)] wStore
          (some ⟨5⟩) genU = (tr, Except.ok (r, s1)) ∧
      r.length = ([("a", 1), ("b", 1)] : List (String × Nat)).length ∧
      List.Forall₂ (fun (p : String × Nat) (b : List Nat) => wStore p.1 = some b)
        [("a", 1), ("b", 1)] r := by
  refine ⟨by decide, ?_⟩
  refine C1_download_correct_amended wStore [("a", 1), ("b", 1)] genU ⟨5⟩
    (by decide) ?_ ?_
  · intro p hp
    fin_cases hp
    · exact ⟨[3], rfl, rfl⟩
    · exact ⟨[4], rfl, rfl⟩
  · intro j p hp
    fin_cases hp
    · simp only [genU]
      decide
    · simp only [genU]
      decide

theorem plan_group_head_bounded (maxSize : Nat) :
    ∀ (n : Nat) (objects : List (String × Nat)), objects.length ≤ n →
      ∀ g, PlanItem.group g ∈ plan maxSize objects →
        ∃ o t, g = o :: t ∧ o.2 ≤ maxSize := by
  intro n
  induction n with
  | zero =>
    intro objects h g hg
    cases objects with
    | nil => simp [plan] at hg
    | cons o rest => simp at h
  | succ n ih =>
    intro objects h g hg
    cases objects with
    | nil => simp [plan] at hg
    | cons o rest =>
      have hle : rest.length ≤ n := by
        simp only [List.length_cons] at h
        omega
      by_cases ho : o.2 > maxSize
      · simp only [plan, if_pos ho, List.mem_cons] at hg
        rcases hg with hg1 | hg2
        · exact absurd hg1 (by simp)
        · exact ih rest hle g hg2
      · simp only [plan, if_neg ho, List.mem_cons] at hg
        rcases hg with hg1 | hg2
        · have hgs : g = (buildSlice maxSize (o :: rest) 0 0).1 := by
            injection hg1
          rw [buildSlice_cons_zero] at hgs
          exact ⟨o, (buildSlice maxSize rest o.2 1).1, by simpa using hgs,
            Nat.le_of_not_lt ho⟩
        · have hlt : (buildSlice maxSize (o :: rest) 0 0).2.length ≤ n := by
            have := buildSlice_rest_lt maxSize o rest
            simp only [List.length_cons] at this h
            omega
          exact ih (buildSlice maxSize (o :: rest) 0 0).2 hlt g hg2

/-- Claim C3 (counterexample to the claim as stated): with
`max_composite_object_size = 100`, on input `[("x", 50), ("big", 5000)]`
the planner places `("big", 5000)` (whose size strictly exceeds the cap)
inside a composite group of two, rather than fetching it singly: the
one-overshoot admission rule admits an oversized item into an already-open
group. -/
theorem C3_oversized_counterexample :
    plan 100 [("x", 50), ("big", 5000)] =
      [PlanItem.group [("x", 50), ("big", 5000)]] ∧ (5000 : Nat) > 100 := by
  constructor
  · simp [plan, buildSlice, MAX_NUM_OBJECTS_TO_COMPOSE]
  · decide

/-- Claim C3 (amended): an item whose size exceeds
`max_composite_object_size` is fetched singly when the planner inspects it
at the top of the outer loop (Rule A), and every composite group starts
with an item whose size is within the cap; but an oversized item may still
be placed inside a composite group as a non-first element, admitted by the
one-overshoot rule. -/
theorem C3_oversized_amended (maxSize : Nat) (objects : List (String × Nat)) :
    (∀ (o : String × Nat) (rest : List (String × Nat)), o.2 > maxSize →
      plan maxSize (o :: rest) = PlanItem.single o :: plan maxSize rest) ∧
    (∀ g, PlanItem.group g ∈ plan maxSize objects →
      ∃ o t, g = o :: t ∧ o.2 ≤ maxSize) := by
  constructor
  · intro o rest ho
    simp only [plan, if_pos ho]
  · exact plan_group_head_bounded maxSize objects.length objects (Nat.le_refl _)

theorem C3_oversized_witness :
    plan 100 [("big", 5000)] = PlanItem.single ("big", 5000) :: plan 100 [] ∧
    ∃ o t, ([("x", 50), ("big", 5000)] : List (String × Nat)) = o :: t ∧
      o.2 ≤ 100 := by
  constructor
  · exact (C3_oversized_amended 100 []).1 ("big", 5000) [] (by decide)
  · refine (C3_oversized_amended 100 [("x", 50), ("big", 5000)]).2
      [("x", 50), ("big", 5000)] ?_
    simp [plan, buildSlice, MAX_NUM_OBJECTS_TO_COMPOSE]

theorem compose_trace {σ : Type} (A : Adapter σ) (s : σ) (d : String)
    (objs : List (String × Nat)) :
    ∀ e ∈ (compose A s d objs).1,
      e = Ev.composeCall d (objs.map Prod.fst) ∧
      objs.length ≤ MAX_NUM_OBJECTS_TO_COMPOSE := by
  intro e he
  by_cases hgt : objs.length > MAX_NUM_OBJECTS_TO_COMPOSE
  · simp [compose, if_pos hgt] at he
  · simp only [compose, if_neg hgt, List.mem_singleton] at he
    exact ⟨he, Nat.le_of_not_lt hgt⟩

theorem decompose_trace {σ : Type} (A : Adapter σ) (s : σ) (name : String)
    (objs : List (String × Nat)) :
    ∀ e ∈ (decompose A s name objs).1,
      e = Ev.download name ∨ ∃ g w, e = Ev.logLenMismatch g w := by
  intro e he
  rcases hd : A.downloadAsBytes s name with er | content
  · simp only [decompose, download_single, hd, List.mem_singleton] at he
    exact Or.inl he
  · by_cases hm : (decomposeLoop content objs 0).2 = content.length
    · simp only [decompose, download_single, hd] at he
      rw [if_neg (by simpa using hm)] at he
      simp only [List.mem_singleton] at he
      exact Or.inl he
    · simp only [decompose, download_single, hd] at he
      rw [if_pos hm] at he
      simp only [List.singleton_append, List.mem_cons, List.mem_singleton,
        List.not_mem_nil, or_false] at he
      rcases he with he | he
      · exact Or.inl he
      · exact Or.inr ⟨_, _, he⟩

theorem plan_group_length_bounded (maxSize : Nat) :
    ∀ (n : Nat) (objects : List (String × Nat)), objects.length ≤ n →
      ∀ g, PlanItem.group g ∈ plan maxSize objects →
        1 ≤ g.length ∧ g.length ≤ MAX_NUM_OBJECTS_TO_COMPOSE := by
  intro n
  induction n with
  | zero =>
    intro objects h g hg
    cases objects with
    | nil => simp [plan] at hg
    | cons o rest => simp at h
  | succ n ih =>
    intro objects h g hg
    cases objects with
    | nil => simp [plan] at hg
    | cons o rest =>
      have hle : rest.length ≤ n := by
        simp only [List.length_cons] at h
        omega
      by_cases ho : o.2 > maxSize
      · simp only [plan, if_pos ho, List.mem_cons] at hg
        rcases hg with hg1 | hg2
        · exact absurd hg1 (by simp)
        · exact ih rest hle g hg2
      · simp only [plan, if_neg ho, List.mem_cons] at hg
        rcases hg with hg1 | hg2
        · have hgs : g = (buildSlice maxSize (o :: rest) 0 0).1 := by
            injection hg1
          constructor
          · rw [hgs, buildSlice_cons_zero]
            simp
          · rw [hgs]
            have := buildSlice_fst_length_le maxSize (o :: rest) 0 0 (by decide)
            omega
        · have hlt : (buildSlice maxSize (o :: rest) 0 0).2.length ≤ n := by
            have := buildSlice_rest_lt maxSize o rest
            simp only [List.length_cons] at this h
            omega
          exact ih (buildSlice maxSize (o :: rest) 0 0).2 hlt g hg2

theorem go_composeCall_arity {σ : Type} (A : Adapter σ) (maxSize : Nat)
    (gen : Nat → String) :
    ∀ (n : Nat) (objects : List (String × Nat)), objects.length ≤ n →
      ∀ (s : σ) (k : Nat) (d : String) (srcs : List String),
        Ev.composeCall d srcs ∈ (dataflux_download_go A maxSize gen objects s k).1 →
        2 ≤ srcs.length ∧ srcs.length ≤ MAX_NUM_OBJECTS_TO_COMPOSE := by
  intro n
  induction n with
  | zero =>
    intro objects h s k d srcs hmem
    cases objects with
    | nil => simp [dataflux_download_go] at hmem
    | cons o rest => simp at h
  | succ n ih =>
    intro objects h s k d srcs hmem
    cases objects with
    | nil => simp [dataflux_download_go] at hmem
    | cons o rest =>
      have hle : rest.length ≤ n := by
        simp only [List.length_cons] at h
        omega
      by_cases ho : o.2 > maxSize
      · rcases hd : A.downloadAsBytes s o.1 with er | content
        · simp [dataflux_download_go, if_pos ho, download_single, hd] at hmem
        · rcases hr : dataflux_download_go A maxSize gen rest s k with ⟨tr2, r2⟩
          rcases r2 with er | ⟨res, s1⟩
          · simp only [dataflux_download_go, if_pos ho, download_single, hd, hr,
              List.singleton_append, List.mem_cons] at hmem
            rcases hmem with habs | hmem2
            · simp at habs
            · exact ih rest hle s k d srcs (by rw [hr]; exact hmem2)
          · simp only [dataflux_download_go, if_pos ho, download_single, hd, hr,
              List.singleton_append, List.mem_cons] at hmem
            rcases hmem with habs | hmem2
            · simp at habs
            · exact ih rest hle s k d srcs (by rw [hr]; exact hmem2)
      · rcases hpr : buildSlice maxSize (o :: rest) 0 0 with ⟨slice, rest2⟩
        have hle2 : rest2.length ≤ n := by
          have := buildSlice_rest_lt maxSize o rest
          rw [hpr] at this
          simp only [List.length_cons] at this h
          omega
        have hczp := buildSlice_cons_zero maxSize o rest
        rw [hpr] at hczp
        have hslice_cons : slice = o :: (buildSlice maxSize rest o.2 1).1 :=
          congrArg Prod.fst hczp
        by_cases hl : slice.length = 1
        · rcases hd : A.downloadAsBytes s slice.headI.1 with er | content
          · simp [dataflux_download_go, if_neg ho, hpr, if_pos hl,
              download_single, hd] at hmem
          · rcases hr : dataflux_download_go A maxSize gen rest2 s k with ⟨tr2, r2⟩
            rcases r2 with er | ⟨res, s1⟩
            · simp only [dataflux_download_go, if_neg ho, hpr, if_pos hl,
                download_single, hd, hr, List.singleton_append, List.mem_cons] at hmem
              rcases hmem with habs | hmem2
              · simp at habs
              · exact ih rest2 hle2 s k d srcs (by rw [hr]; exact hmem2)
            · simp only [dataflux_download_go, if_neg ho, hpr, if_pos hl,
                download_single, hd, hr, List.singleton_append, List.mem_cons] at hmem
              rcases hmem with habs | hmem2
              · simp at habs
              · exact ih rest2 hle2 s k d srcs (by rw [hr]; exact hmem2)
        · have hfromc : ∀ trc : List Ev,
              compose A s (composedPrefixStr ++ gen k) slice = (trc, (compose A s
                (composedPrefixStr ++ gen k) slice).2) →
              Ev.composeCall d srcs ∈ trc →
              2 ≤ srcs.length ∧ srcs.length ≤ MAX_NUM_OBJECTS_TO_COMPOSE := by
            intro trc htrc hin
            have hct := compose_trace A s (composedPrefixStr ++ gen k) slice
              (Ev.composeCall d srcs) (by rw [htrc]; exact hin)
            obtain ⟨heq, hle32⟩ := hct
            have hsrcs : srcs = slice.map Prod.fst := by
              injection heq
            have h2 : 2 ≤ slice.length := by
              have h1 : slice.length = (buildSlice maxSize rest o.2 1).1.length + 1 := by
                rw [hslice_cons]
                simp
              omega
            rw [hsrcs, List.length_map]
            exact ⟨h2, hle32⟩
          rcases hc : compose A s (composedPrefixStr ++ gen k) slice with ⟨trc, rc⟩
          have htrc1 : (compose A s (composedPrefixStr ++ gen k) slice).1 = trc := by
            rw [hc]
          rcases rc with er | s1
          · simp only [dataflux_download_go, if_neg ho, hpr, if_neg hl, hc] at hmem
            exact hfromc trc (by rw [hc]) hmem
          · have hfromd : Ev.composeCall d srcs ∈
                (decompose A s1 (composedPrefixStr ++ gen k) slice).1 → False := by
              intro hin
              have := decompose_trace A s1 (composedPrefixStr ++ gen k) slice
                (Ev.composeCall d srcs) hin
              rcases this with habs | ⟨g, w, habs⟩
              · simp at habs
              · simp at habs
            rcases hdec : decompose A s1 (composedPrefixStr ++ gen k) slice with ⟨trd, rd⟩
            have htrd1 : (decompose A s1 (composedPrefixStr ++ gen k) slice).1 = trd := by
              rw [hdec]
            rcases rd with er | contents
            · simp only [dataflux_download_go, if_neg ho, hpr, if_neg hl, hc, hdec,
                List.mem_append] at hmem
              rcases hmem with hmem1 | hmem2
              · exact hfromc trc (by rw [hc]) hmem1
              · exact absurd (htrd1 ▸ hmem2) hfromd
            · rcases hdel : A.deleteBlob s1 (composedPrefixStr ++ gen k) with er2 | s2
              · rcases hr : dataflux_download_go A maxSize gen rest2 s1 (k + 1)
                  with ⟨tr2, r2⟩
                rcases r2 with er3 | ⟨res, s3⟩
                · simp only [dataflux_download_go, if_neg ho, hpr, if_neg hl, hc, hdec,
                    hdel, hr, List.append_assoc, List.mem_append] at hmem
                  rcases hmem with hmem1 | hmem2 | habs | hmem4
                  · exact hfromc trc (by rw [hc]) hmem1
                  · exact absurd (htrd1 ▸ hmem2) hfromd
                  · simp at habs
                  · exact ih rest2 hle2 s1 (k + 1) d srcs (by rw [hr]; exact hmem4)
                · simp only [dataflux_download_go, if_neg ho, hpr, if_neg hl, hc, hdec,
                    hdel, hr, List.append_assoc, List.mem_append] at hmem
                  rcases hmem with hmem1 | hmem2 | habs | hmem4
                  · exact hfromc trc (by rw [hc]) hmem1
                  · exact absurd (htrd1 ▸ hmem2) hfromd
                  · simp at habs
                  · exact ih rest2 hle2 s1 (k + 1) d srcs (by rw [hr]; exact hmem4)
              · rcases hr : dataflux_download_go A maxSize gen rest2 s2 (k + 1)
                  with ⟨tr2, r2⟩
                rcases r2 with er3 | ⟨res, s3⟩
                · simp only [dataflux_download_go, if_neg ho, hpr, if_neg hl, hc, hdec,
                    hdel, hr, List.append_assoc, List.mem_append] at hmem
                  rcases hmem with hmem1 | hmem2 | habs | hmem4
                  · exact hfromc trc (by rw [hc]) hmem1
                  · exact absurd (htrd1 ▸ hmem2) hfromd
                  · simp at habs
                  · exact ih rest2 hle2 s2 (k + 1) d srcs (by rw [hr]; exact hmem4)
                · simp only [dataflux_download_go, if_neg ho, hpr, if_neg hl, hc, hdec,
                    hdel, hr, List.append_assoc, List.mem_append] at hmem
                  rcases hmem with hmem1 | hmem2 | habs | hmem4
                  · exact hfromc trc (by rw [hc]) hmem1
                  · exact absurd (htrd1 ▸ hmem2) hfromd
                  · simp at habs
                  · exact ih rest2 hle2 s2 (k + 1) d srcs (by rw [hr]; exact hmem4)

/-- Claim C5: every group formed by the planner (every `objects_slice`
built in the else-branch) has between 1 and 32 members (here for every
`maxSize : Nat`, i.e. every `max_composite_object_size ≥ 0`); every
server compose call ever issued by the engine carries between 2 and 32
sources (so a singleton group is never composed); and when the slice at
the head of the loop is a singleton, the run proceeds by a plain single
download of that object. -/
theorem C5_group_rules (maxSize : Nat) (objects : List (String × Nat)) :
    (∀ g, PlanItem.group g ∈ plan maxSize objects →
      1 ≤ g.length ∧ g.length ≤ MAX_NUM_OBJECTS_TO_COMPOSE) ∧
    (∀ (σ : Type) (A : Adapter σ) (s : σ) (gen : Nat → String) (k : Nat)
      (d : String) (srcs : List String),
      Ev.composeCall d srcs ∈ (dataflux_download_go A maxSize gen objects s k).1 →
      2 ≤ srcs.length ∧ srcs.length ≤ MAX_NUM_OBJECTS_TO_COMPOSE) ∧
    (∀ (σ : Type) (A : Adapter σ) (s : σ) (gen : Nat → String) (k : Nat)
      (o : String × Nat) (rest : List (String × Nat)),
      ¬ o.2 > maxSize → (buildSlice maxSize (o :: rest) 0 0).1 = [o] →
      ∃ t, (dataflux_download_go A maxSize gen (o :: rest) s k).1 =
        Ev.download o.1 :: t) := by
  refine ⟨?_, ?_, ?_⟩
  · exact plan_group_length_bounded maxSize objects.length objects (Nat.le_refl _)
  · intro σ A s gen k d srcs hmem
    exact go_composeCall_arity A maxSize gen objects.length objects (Nat.le_refl _)
      s k d srcs hmem
  · intro σ A s gen k o rest ho hs
    rcases hd : A.downloadAsBytes s o.1 with er | content
    · refine ⟨[], ?_⟩
      simp [dataflux_download_go, if_neg ho, hs, download_single, hd]
    · rcases hr : dataflux_download_go A maxSize gen
        (buildSlice maxSize (o :: rest) 0 0).2 s k with ⟨tr2, r2⟩
      rcases r2 with er | ⟨res, s1⟩
      · refine ⟨tr2, ?_⟩
        simp [dataflux_download_go, if_neg ho, hs, download_single, hd, hr]
      · refine ⟨tr2, ?_⟩
        simp [dataflux_download_go, if_neg ho, hs, download_single, hd, hr]

theorem C5_group_rules_witness :
    (1 ≤ ([("a", 1), ("b", 1)] : List (String × Nat)).length ∧
      ([("a", 1), ("b", 1)] : List (String × Nat)).length ≤
        MAX_NUM_OBJECTS_TO_COMPOSE) ∧
    (2 ≤ (["a", "b"] : List String).length ∧
      (["a", "b"] : List String).length ≤ MAX_NUM_OBJECTS_TO_COMPOSE) ∧
    ∃ t, (dataflux_download_go okAdapter 5 genU [("a", 1)] () 0).1 =
      Ev.download "a" :: t := by
  refine ⟨?_, ?_, ?_⟩
  · exact (C5_group_rules 5 [("a", 1), ("b", 1)]).1 [("a", 1), ("b", 1)]
      (by simp [plan, buildSlice, MAX_NUM_OBJECTS_TO_COMPOSE])
  · exact (C5_group_rules 5 [("a", 1), ("b", 1)]).2.1 Unit okAdapter () genU 0
      "dataflux-composed-objects/u" ["a", "b"]
      (by simp [dataflux_download_go, buildSlice, compose, decompose,
        download_single, decomposeLoop, okAdapter, genU, composedPrefixStr,
        MAX_NUM_OBJECTS_TO_COMPOSE])
  · exact (C5_group_rules 5 [("a", 1)]).2.2 Unit okAdapter () genU 0 ("a", 1) []
      (by decide) (by simp [buildSlice, MAX_NUM_OBJECTS_TO_COMPOSE])

theorem decompose_ok {σ : Type} (A : Adapter σ) (s : σ) (name : String)
    (objs : List (String × Nat)) (B : List Nat)
    (h : A.downloadAsBytes s name = Except.ok B) :
    ∃ trd, decompose A s name objs = (trd, Except.ok (decomposeLoop B objs 0).1) ∧
      (∀ e ∈ trd, e = Ev.download name ∨ ∃ g w, e = Ev.logLenMismatch g w) := by
  by_cases hm : (decomposeLoop B objs 0).2 = B.length
  · refine ⟨[Ev.download name], ?_, ?_⟩
    · simp [decompose, download_single, h, hm]
    · intro e he
      simp only [List.mem_singleton] at he
      exact Or.inl he
  · refine ⟨[Ev.download name, Ev.logLenMismatch (decomposeLoop B objs 0).2 B.length],
      ?_, ?_⟩
    · simp [decompose, download_single, h, hm]
    · intro e he
      simp only [List.mem_cons, List.mem_singleton, List.not_mem_nil, or_false] at he
      rcases he with he | he
      · exact Or.inl he
      · exact Or.inr ⟨_, _, he⟩

theorem go_delete_fail {σ : Type} (A : Adapter σ)
    (hdl : ∀ (s : σ) (nm : String), ∃ b, A.downloadAsBytes s nm = Except.ok b)
    (hcomp : ∀ (s : σ) (d : String) (ns : List String),
      ∃ s2, A.composeBlobs s d ns = Except.ok s2)
    (hdel : ∀ (s : σ) (nm : String), ∃ e, A.deleteBlob s nm = Except.error e)
    (maxSize : Nat) (gen : Nat → String) :
    ∀ (n : Nat) (objects : List (String × Nat)), objects.length ≤ n →
      ∀ (s : σ) (k : Nat),
      ∃ tr r s1,
        dataflux_download_go A maxSize gen objects s k = (tr, Except.ok (r, s1)) ∧
        r.length = objects.length ∧
        (∀ (d : String) (srcs : List String), Ev.composeCall d srcs ∈ tr →
          Ev.deleteCall d ∈ tr ∧ Ev.logDeleteFail ∈ tr) := by
  intro n
  induction n with
  | zero =>
    intro objects h s k
    cases objects with
    | nil =>
      refine ⟨[], [], s, by simp [dataflux_download_go], rfl, ?_⟩
      intro d srcs hmem
      simp at hmem
    | cons o rest => simp at h
  | succ n ih =>
    intro objects h s k
    cases objects with
    | nil =>
      refine ⟨[], [], s, by simp [dataflux_download_go], rfl, ?_⟩
      intro d srcs hmem
      simp at hmem
    | cons o rest =>
      have hle : rest.length ≤ n := by
        simp only [List.length_cons] at h
        omega
      by_cases ho : o.2 > maxSize
      · obtain ⟨b, hb⟩ := hdl s o.1
        obtain ⟨tr2, r2, s2, hrun, hlen, htr⟩ := ih rest hle s k
        refine ⟨Ev.download o.1 :: tr2, b :: r2, s2, ?_, by simp [hlen], ?_⟩
        · simp [dataflux_download_go, if_pos ho, download_single, hb, hrun]
        · intro d srcs hmem
          simp only [List.mem_cons] at hmem
          rcases hmem with habs | hmem2
          · simp at habs
          · obtain ⟨h1, h2⟩ := htr d srcs hmem2
            exact ⟨List.mem_cons_of_mem _ h1, List.mem_cons_of_mem _ h2⟩
      · rcases hpr : buildSlice maxSize (o :: rest) 0 0 with ⟨slice, rest2⟩
        have happend : slice ++ rest2 = o :: rest := by
          have := buildSlice_append maxSize (o :: rest) 0 0
          rw [hpr] at this
          exact this
        have hle2 : rest2.length ≤ n := by
          have := buildSlice_rest_lt maxSize o rest
          rw [hpr] at this
          simp only [List.length_cons] at this h
          omega
        have hlens : slice.length + rest2.length = rest.length + 1 := by
          have := congrArg List.length happend
          simp only [List.length_append, List.length_cons] at this
          omega
        by_cases hl : slice.length = 1
        · obtain ⟨b, hb⟩ := hdl s slice.headI.1
          obtain ⟨tr2, r2, s2, hrun, hlen, htr⟩ := ih rest2 hle2 s k
          refine ⟨Ev.download slice.headI.1 :: tr2, b :: r2, s2, ?_, ?_, ?_⟩
          · simp [dataflux_download_go, if_neg ho, hpr, if_pos hl,
              download_single, hb, hrun]
          · simp only [List.length_cons, hlen]
            omega
          · intro d srcs hmem
            simp only [List.mem_cons] at hmem
            rcases hmem with habs | hmem2
            · simp at habs
            · obtain ⟨h1, h2⟩ := htr d srcs hmem2
              exact ⟨List.mem_cons_of_mem _ h1, List.mem_cons_of_mem _ h2⟩
        · have hslice_le : slice.length ≤ MAX_NUM_OBJECTS_TO_COMPOSE := by
            have h1 := buildSlice_fst_length_le maxSize (o :: rest) 0 0 (by decide)
            rw [hpr] at h1
            simpa using h1
          have hnotgt : ¬ slice.length > MAX_NUM_OBJECTS_TO_COMPOSE := by omega
          obtain ⟨s1, hs1⟩ := hcomp s (composedPrefixStr ++ gen k) (slice.map Prod.fst)
          obtain ⟨B, hB⟩ := hdl s1 (composedPrefixStr ++ gen k)
          obtain ⟨trd, hdec, htrd⟩ := decompose_ok A s1 (composedPrefixStr ++ gen k)
            slice B hB
          obtain ⟨er, her⟩ := hdel s1 (composedPrefixStr ++ gen k)
          obtain ⟨tr2, r2, s2, hrun, hlen, htr⟩ := ih rest2 hle2 s1 (k + 1)
          refine ⟨Ev.composeCall (composedPrefixStr ++ gen k) (slice.map Prod.fst) ::
              (trd ++ Ev.deleteCall (composedPrefixStr ++ gen k) ::
                Ev.logDeleteFail :: tr2),
            (decomposeLoop B slice 0).1 ++ r2, s2, ?_, ?_, ?_⟩
          · simp [dataflux_download_go, if_neg ho, hpr, if_neg hl, compose,
              hnotgt, hs1, hdec, her, hrun]
          · simp only [List.length_append, decomposeLoop_fst_length, hlen]
            simp only [List.length_cons]
            omega
          · intro d srcs hmem
            simp only [List.mem_cons, List.mem_append] at hmem
            rcases hmem with heq | hmem2 | heq2 | heq3 | hmem3
            · have hd : d = composedPrefixStr ++ gen k := by
                injection heq
              subst hd
              constructor
              · simp
              · simp
            · rcases htrd _ hmem2 with habs | ⟨g, w, habs⟩
              · simp at habs
              · simp at habs
            · simp at heq2
            · simp at heq3
            · obtain ⟨h1, h2⟩ := htr d srcs hmem3
              constructor
              · simp only [List.mem_cons, List.mem_append]
                exact Or.inr (Or.inr (Or.inr (Or.inr h1)))
              · simp only [List.mem_cons, List.mem_append]
                exact Or.inr (Or.inr (Or.inr (Or.inr h2)))

/-- Claim C9: if every delete raises while downloads and composes succeed,
`dataflux_download` still returns the full result vector successfully; for
every multi-object group (every compose call in the trace) a delete of the
same composite is attempted and the failure is logged, and no error is
re-raised. -/
theorem C9_delete_failure_swallowed {σ : Type} (A : Adapter σ)
    (maxSize : Nat) (gen : Nat → String) (objects : List (String × Nat)) (s : σ)
    (hdl : ∀ (s2 : σ) (nm : String), ∃ b, A.downloadAsBytes s2 nm = Except.ok b)
    (hcomp : ∀ (s2 : σ) (d : String) (ns : List String),
      ∃ s3, A.composeBlobs s2 d ns = Except.ok s3)
    (hdel : ∀ (s2 : σ) (nm : String), ∃ e, A.deleteBlob s2 nm = Except.error e) :
    ∃ tr r s1,
      dataflux_download A objects s (some ⟨maxSize⟩) gen =
        (tr, Except.ok (r, s1)) ∧
      r.length = objects.length ∧
      (∀ (d : String) (srcs : List String), Ev.composeCall d srcs ∈ tr →
        Ev.deleteCall d ∈ tr ∧ Ev.logDeleteFail ∈ tr) :=
  go_delete_fail A hdl hcomp hdel maxSize gen objects.length objects
    (Nat.le_refl _) s 0

theorem C9_delete_failure_swallowed_witness :
    ∃ tr r s1,
      dataflux_download delFailAdapter [("a", 1), ("b", 1)] () (some ⟨5⟩) genU =
        (tr, Except.ok (r, s1)) ∧
      r.length = ([("a", 1), ("b", 1)] : List (String × Nat)).length ∧
      (∀ (d : String) (srcs : List String), Ev.composeCall d srcs ∈ tr →
        Ev.deleteCall d ∈ tr ∧ Ev.logDeleteFail ∈ tr) :=
  C9_delete_failure_swallowed delFailAdapter 5 genU [("a", 1), ("b", 1)] ()
    (fun _ _ => ⟨[9, 9], rfl⟩) (fun _ _ _ => ⟨(), rfl⟩)
    (fun _ _ => ⟨"delete failed", rfl⟩)

/-- Claim C2 (counterexample to the claim as stated): with an adapter whose
compose and delete succeed but whose downloads fail, the multi-object group
`[("a", 1), ("b", 1)]` (cap 5) reaches a successful compose, then the
decompose step raises; the call propagates the error with a trace holding
only the compose call and the failed composite download — no delete of the
composite is attempted before the error propagates. -/
theorem C2_delete_attempt_counterexample :
    dataflux_download c2Adapter [("a", 1), ("b", 1)] () (some ⟨5⟩) genU =
      ([Ev.composeCall "dataflux-composed-objects/u" ["a", "b"],
        Ev.download "dataflux-composed-objects/u"],
       Except.error "download failed") ∧
    Ev.deleteCall "dataflux-composed-objects/u" ∉
      (dataflux_download c2Adapter [("a", 1), ("b", 1)] () (some ⟨5⟩) genU).1 := by
  constructor
  · simp [dataflux_download, dataflux_download_go, buildSlice, compose, decompose,
      download_single, c2Adapter, genU, composedPrefixStr,
      MAX_NUM_OBJECTS_TO_COMPOSE]
  · simp [dataflux_download, dataflux_download_go, buildSlice, compose, decompose,
      download_single, c2Adapter, genU, composedPrefixStr,
      MAX_NUM_OBJECTS_TO_COMPOSE]

theorem decompose_ok_download {σ : Type} (A : Adapter σ) (s : σ) (name : String)
    (objs : List (String × Nat)) (trd : List Ev) (contents : List (List Nat))
    (h : decompose A s name objs = (trd, Except.ok contents)) :
    ∃ b, A.downloadAsBytes s name = Except.ok b := by
  rcases hd : A.downloadAsBytes s name with er | b
  · exfalso
    simp only [decompose, download_single, hd] at h
    have := congrArg Prod.snd h
    simp at this
  · exact ⟨b, rfl⟩

theorem go_deleteCall_inversion {σ : Type} (A : Adapter σ) (maxSize : Nat)
    (gen : Nat → String) :
    ∀ (n : Nat) (objects : List (String × Nat)), objects.length ≤ n →
      ∀ (s : σ) (k : Nat) (d : String),
        Ev.deleteCall d ∈ (dataflux_download_go A maxSize gen objects s k).1 →
        ∃ (sc s1 : σ) (srcs : List String) (b : List Nat),
          A.composeBlobs sc d srcs = Except.ok s1 ∧
          A.downloadAsBytes s1 d = Except.ok b := by
  intro n
  induction n with
  | zero =>
    intro objects h s k d hmem
    cases objects with
    | nil => simp [dataflux_download_go] at hmem
    | cons o rest => simp at h
  | succ n ih =>
    intro objects h s k d hmem
    cases objects with
    | nil => simp [dataflux_download_go] at hmem
    | cons o rest =>
      have hle : rest.length ≤ n := by
        simp only [List.length_cons] at h
        omega
      by_cases ho : o.2 > maxSize
      · rcases hd : A.downloadAsBytes s o.1 with er | content
        · simp [dataflux_download_go, if_pos ho, download_single, hd] at hmem
        · rcases hr : dataflux_download_go A maxSize gen rest s k with ⟨tr2, r2⟩
          rcases r2 with er | ⟨res, s1⟩
          · simp only [dataflux_download_go, if_pos ho, download_single, hd, hr,
              List.singleton_append, List.mem_cons] at hmem
            rcases hmem with habs | hmem2
            · simp at habs
            · exact ih rest hle s k d (by rw [hr]; exact hmem2)
          · simp only [dataflux_download_go, if_pos ho, download_single, hd, hr,
              List.singleton_append, List.mem_cons] at hmem
            rcases hmem with habs | hmem2
            · simp at habs
            · exact ih rest hle s k d (by rw [hr]; exact hmem2)
      · rcases hpr : buildSlice maxSize (o :: rest) 0 0 with ⟨slice, rest2⟩
        have hle2 : rest2.length ≤ n := by
          have := buildSlice_rest_lt maxSize o rest
          rw [hpr] at this
          simp only [List.length_cons] at this h
          omega
        by_cases hl : slice.length = 1
        · rcases hd : A.downloadAsBytes s slice.headI.1 with er | content
          · simp [dataflux_download_go, if_neg ho, hpr, if_pos hl,
              download_single, hd] at hmem
          · rcases hr : dataflux_download_go A maxSize gen rest2 s k with ⟨tr2, r2⟩
            rcases r2 with er | ⟨res, s1⟩
            · simp only [dataflux_download_go, if_neg ho, hpr, if_pos hl,
                download_single, hd, hr, List.singleton_append, List.mem_cons] at hmem
              rcases hmem with habs | hmem2
              · simp at habs
              · exact ih rest2 hle2 s k d (by rw [hr]; exact hmem2)
            · simp only [dataflux_download_go, if_neg ho, hpr, if_pos hl,
                download_single, hd, hr, List.singleton_append, List.mem_cons] at hmem
              rcases hmem with habs | hmem2
              · simp at habs
              · exact ih rest2 hle2 s k d (by rw [hr]; exact hmem2)
        · have hslice_le : slice.length ≤ MAX_NUM_OBJECTS_TO_COMPOSE := by
            have h1 := buildSlice_fst_length_le maxSize (o :: rest) 0 0 (by decide)
            rw [hpr] at h1
            simpa using h1
          have hnotgt : ¬ slice.length > MAX_NUM_OBJECTS_TO_COMPOSE := by omega
          rcases hc : compose A s (composedPrefixStr ++ gen k) slice with ⟨trc, rc⟩
          have hfromc : Ev.deleteCall d ∈ trc → False := by
            intro hin
            obtain ⟨heq, _⟩ := compose_trace A s (composedPrefixStr ++ gen k) slice
              (Ev.deleteCall d) (by rw [hc]; exact hin)
            simp at heq
          rcases rc with er | s1
          · simp only [dataflux_download_go, if_neg ho, hpr, if_neg hl, hc] at hmem
            exact (hfromc hmem).elim
          · have hcb : A.composeBlobs s (composedPrefixStr ++ gen k)
                (slice.map Prod.fst) = Except.ok s1 := by
              have h2 := hc
              unfold compose at h2
              rw [if_neg hnotgt] at h2
              exact congrArg Prod.snd h2
            have hfromd : Ev.deleteCall d ∈
                (decompose A s1 (composedPrefixStr ++ gen k) slice).1 → False := by
              intro hin
              have := decompose_trace A s1 (composedPrefixStr ++ gen k) slice
                (Ev.deleteCall d) hin
              rcases this with habs | ⟨g, w, habs⟩
              · simp at habs
              · simp at habs
            rcases hdec : decompose A s1 (composedPrefixStr ++ gen k) slice
              with ⟨trd, rd⟩
            have htrd1 : (decompose A s1 (composedPrefixStr ++ gen k) slice).1 = trd := by
              rw [hdec]
            rcases rd with er | contents
            · simp only [dataflux_download_go, if_neg ho, hpr, if_neg hl, hc, hdec,
                List.mem_append] at hmem
              rcases hmem with hmem1 | hmem2
              · exact (hfromc hmem1).elim
              · exact (hfromd (htrd1 ▸ hmem2)).elim
            · obtain ⟨b, hbb⟩ := decompose_ok_download A s1 (composedPrefixStr ++ gen k)
                slice trd contents hdec
              rcases hdel : A.deleteBlob s1 (composedPrefixStr ++ gen k) with er2 | s2
              · rcases hr : dataflux_download_go A maxSize gen rest2 s1 (k + 1)
                  with ⟨tr2, r2⟩
                rcases r2 with er3 | ⟨res, s3⟩
                · simp only [dataflux_download_go, if_neg ho, hpr, if_neg hl, hc, hdec,
                    hdel, hr, List.append_assoc, List.mem_append] at hmem
                  rcases hmem with hmem1 | hmem2 | habs | hmem4
                  · exact (hfromc hmem1).elim
                  · exact (hfromd (htrd1 ▸ hmem2)).elim
                  · simp only [List.mem_cons, List.mem_singleton, List.not_mem_nil,
                      or_false] at habs
                    rcases habs with h1 | h2
                    · injection h1 with hd1
                      subst hd1
                      exact ⟨s, s1, slice.map Prod.fst, b, hcb, hbb⟩
                    · simp at h2
                  · exact ih rest2 hle2 s1 (k + 1) d (by rw [hr]; exact hmem4)
                · simp only [dataflux_download_go, if_neg ho, hpr, if_neg hl, hc, hdec,
                    hdel, hr, List.append_assoc, List.mem_append] at hmem
                  rcases hmem with hmem1 | hmem2 | habs | hmem4
                  · exact (hfromc hmem1).elim
                  · exact (hfromd (htrd1 ▸ hmem2)).elim
                  · simp only [List.mem_cons, List.mem_singleton, List.not_mem_nil,
                      or_false] at habs
                    rcases habs with h1 | h2
                    · injection h1 with hd1
                      subst hd1
                      exact ⟨s, s1, slice.map Prod.fst, b, hcb, hbb⟩
                    · simp at h2
                  · exact ih rest2 hle2 s1 (k + 1) d (by rw [hr]; exact hmem4)
              · rcases hr : dataflux_download_go A maxSize gen rest2 s2 (k + 1)
                  with ⟨tr2, r2⟩
                rcases r2 with er3 | ⟨res, s3⟩
                · simp only [dataflux_download_go, if_neg ho, hpr, if_neg hl, hc, hdec,
                    hdel, hr, List.append_assoc, List.mem_append] at hmem
                  rcases hmem with hmem1 | hmem2 | habs | hmem4
                  · exact (hfromc hmem1).elim
                  · exact (hfromd (htrd1 ▸ hmem2)).elim
                  · simp only [List.mem_singleton] at habs
                    injection habs with hd1
                    subst hd1
                    exact ⟨s, s1, slice.map Prod.fst, b, hcb, hbb⟩
                  · exact ih rest2 hle2 s2 (k + 1) d (by rw [hr]; exact hmem4)
                · simp only [dataflux_download_go, if_neg ho, hpr, if_neg hl, hc, hdec,
                    hdel, hr, List.append_assoc, List.mem_append] at hmem
                  rcases hmem with hmem1 | hmem2 | habs | hmem4
                  · exact (hfromc hmem1).elim
                  · exact (hfromd (htrd1 ▸ hmem2)).elim
                  · simp only [List.mem_singleton] at habs
                    injection habs with hd1
                    subst hd1
                    exact ⟨s, s1, slice.map Prod.fst, b, hcb, hbb⟩
                  · exact ih rest2 hle2 s2 (k + 1) d (by rw [hr]; exact hmem4)

/-- Claim C2 (amended): two facts about the orchestrator, for every adapter.
First, for every multi-object group — any `objects_slice` of two or more
members built by the inner loop, with arbitrary remaining input after it and
at an arbitrary loop state and composite counter — if the decompose step
fails (its composite download raises) after the compose step succeeded, the
loop propagates the error immediately: the events of the run from that
point are exactly the compose call and the failed composite download, with
no delete attempt. Second, in every run a delete call for a composite `d`
occurs only if `d` was composed successfully and its download then
succeeded, i.e. a delete is attempted only after decompose returns
successfully. -/
theorem C2_no_delete_on_decompose_failure (maxSize : Nat) (gen : Nat → String) :
    (∀ (σ : Type) (A : Adapter σ) (s s1 : σ) (o : String × Nat)
      (rest slice rest2 : List (String × Nat)) (k : Nat) (e : String),
      ¬ o.2 > maxSize →
      buildSlice maxSize (o :: rest) 0 0 = (slice, rest2) →
      ¬ slice.length = 1 →
      A.composeBlobs s (composedPrefixStr ++ gen k) (slice.map Prod.fst) =
        Except.ok s1 →
      A.downloadAsBytes s1 (composedPrefixStr ++ gen k) = Except.error e →
      dataflux_download_go A maxSize gen (o :: rest) s k =
        ([Ev.composeCall (composedPrefixStr ++ gen k) (slice.map Prod.fst),
          Ev.download (composedPrefixStr ++ gen k)], Except.error e)) ∧
    (∀ (σ : Type) (A : Adapter σ) (objects : List (String × Nat)) (s : σ)
      (k : Nat) (d : String),
      Ev.deleteCall d ∈ (dataflux_download_go A maxSize gen objects s k).1 →
      ∃ (sc s1 : σ) (srcs : List String) (b : List Nat),
        A.composeBlobs sc d srcs = Except.ok s1 ∧
        A.downloadAsBytes s1 d = Except.ok b) := by
  constructor
  · intro σ A s s1 o rest slice rest2 k e ho hpr hl hcomp hdl
    have hslice_le : slice.length ≤ MAX_NUM_OBJECTS_TO_COMPOSE := by
      have h1 := buildSlice_fst_length_le maxSize (o :: rest) 0 0 (by decide)
      rw [hpr] at h1
      simpa using h1
    have hnotgt : ¬ slice.length > MAX_NUM_OBJECTS_TO_COMPOSE := by omega
    simp [dataflux_download_go, if_neg ho, hpr, if_neg hl, compose, hnotgt,
      hcomp, decompose, download_single, hdl]
  · intro σ A objects s k d hmem
    exact go_deleteCall_inversion A maxSize gen objects.length objects
      (Nat.le_refl _) s k d hmem

theorem C2_no_delete_on_decompose_failure_witness :
    dataflux_download_go c2Adapter 5 genU [("a", 3), ("b", 4), ("c", 2)] () 0 =
      ([Ev.composeCall (composedPrefixStr ++ genU 0) ["a", "b"],
        Ev.download (composedPrefixStr ++ genU 0)],
       Except.error "download failed") ∧
    ∃ (sc s1 : Unit) (srcs : List String) (b : List Nat),
      okAdapter.composeBlobs sc "dataflux-composed-objects/u" srcs =
        Except.ok s1 ∧
      okAdapter.downloadAsBytes s1 "dataflux-composed-objects/u" =
        Except.ok b := by
  constructor
  · exact (C2_no_delete_on_decompose_failure 5 genU).1 Unit c2Adapter () ()
      ("a", 3) [("b", 4), ("c", 2)] [("a", 3), ("b", 4)] [("c", 2)] 0
      "download failed" (by decide)
      (by simp [buildSlice, MAX_NUM_OBJECTS_TO_COMPOSE]) (by decide) rfl rfl
  · exact (C2_no_delete_on_decompose_failure 5 genU).2 Unit okAdapter
      [("a", 1), ("b", 1)] () 0 "dataflux-composed-objects/u"
      (by simp [dataflux_download_go, buildSlice, compose, decompose,
        download_single, decomposeLoop, okAdapter, genU, composedPrefixStr,
        MAX_NUM_OBJECTS_TO_COMPOSE])
